import Mathlib

/-!
Verification of the CyberStalk monitor (Windows client + Flask collector).

The development shallowly embeds the two Python modules:

* `client_windows/monitor_apps.py` — window enumeration (`get_open_apps`)
  and the foreground-window probe (`get_active_window_info`);
* `server/server.py` — the token check (`check_token_from_request`) and the
  HTTP handlers (`update_status`, `get_current`, `heartrate`,
  `heartrate_history`).

External collaborators are modelled as data or parameters, following the
spec's scope section:

* the windowing subsystem (`win32gui`/`win32process`) yields a sequence of
  window descriptors (`RawWindow`) with visibility, title, rectangle and
  owning pid; the `EnumWindows` callback protocol is reframed as a fold over
  that sequence;
* the process-information API (`psutil.Process(pid).name()`) is modelled by a
  `ProcLookup` outcome attached to each window: either a resolved name or
  one of the three failure modes `psutil` can raise
  (`NoSuchProcess`, `AccessDenied`, `ZombieProcess`);
* the MySQL tables are lists of rows; `ORDER BY id DESC` is an explicit sort
  and `LIMIT n` a `take`; `AUTO_INCREMENT` ids are the running maximum plus
  one;
* `json.dumps` / `json.loads` for the `apps_json` column are an opaque
  encoder/decoder passed as parameters where a handler uses them.
-/

namespace CyberStalk

/-! ## Windows client: raw window descriptors and process lookup -/

/-- Outcome of `psutil.Process(pid).name()` for the process owning a window:
either the resolved process name, or one of the three `psutil` exceptions the
client code handles.  In `psutil`, `ZombieProcess` is a subclass of
`NoSuchProcess`, which matters for which `except` clause catches it in
`get_active_window_info`. -/
inductive ProcLookup where
  | ok (name : String)
  | noSuchProcess
  | accessDenied
  | zombieProcess
deriving DecidableEq, Repr

/-- One window handle as delivered by `win32gui.EnumWindows`, together with
the attributes the callback reads: `IsWindowVisible`, `GetWindowText`,
`GetWindowRect` (left, top, right, bottom) and the owning pid from
`GetWindowThreadProcessId`, plus the outcome of the `psutil` name lookup for
that pid. -/
structure RawWindow where
  hwnd : Nat
  visible : Bool
  title : String
  left : Int
  top : Int
  right : Int
  bottom : Int
  pid : Nat
  proc : ProcLookup
deriving DecidableEq, Repr

/-- One element of the reported app list:
`{"pid": ..., "process_name": ..., "window_title": ...}`. -/
structure AppEntry where
  pid : Nat
  process_name : String
  window_title : String
deriving DecidableEq, Repr

/-- Name resolution in `get_open_apps`:
`except (psutil.NoSuchProcess, psutil.AccessDenied, psutil.ZombieProcess):
proc_name = "Unknown"` — a single clause substituting `"Unknown"` for all
three failure modes. -/
def resolveNameEnum : ProcLookup → String
  | .ok name => name
  | .noSuchProcess => "Unknown"
  | .accessDenied => "Unknown"
  | .zombieProcess => "Unknown"

/-- `True` exactly for the failure outcomes of the process-name lookup. -/
def isLookupFailure : ProcLookup → Bool
  | .ok _ => false
  | .noSuchProcess => true
  | .accessDenied => true
  | .zombieProcess => true

/-- The fixed `system_like` denylist from `get_open_apps`. -/
def systemLike : List String :=
  ["svchost.exe", "System Idle Process", "System", "SearchApp.exe",
   "RuntimeBroker.exe"]

/-- Python `title.strip()` is empty iff every character of the title is
whitespace; the callback's `if not title.strip(): return` check is modelled
by this per-character test (ASCII whitespace). -/
def isBlankTitle (s : String) : Bool := s.data.all Char.isWhitespace

/-- The filter stage of the `enum_window_callback`: a window survives iff it
is visible, its stripped title is non-empty, its rectangle is at least
100 wide and 50 high, and its resolved process name is not in the
`system_like` denylist.  The Python code applies these as successive early
returns in the same order. -/
def survives (w : RawWindow) : Bool :=
  w.visible
    && !(isBlankTitle w.title)
    && !(w.right - w.left < 100)
    && !(w.bottom - w.top < 50)
    && !(systemLike.contains (resolveNameEnum w.proc))

/-- Lookup in the `apps_by_pid` dictionary (modelled as an insertion-ordered
association list, which is what a Python `dict` is). -/
def findEntry (pid : Nat) : List (Nat × AppEntry) → Option AppEntry
  | [] => none
  | (k, e) :: rest => if k = pid then some e else findEntry pid rest

/-- In-place update `apps_by_pid[pid]["window_title"] = title` of the first
entry with the given key, keeping the dictionary's insertion order. -/
def updateTitle (pid : Nat) (t : String) :
    List (Nat × AppEntry) → List (Nat × AppEntry)
  | [] => []
  | (k, e) :: rest =>
    if k = pid then (k, { e with window_title := t }) :: rest
    else (k, e) :: updateTitle pid t rest

/-- The longest-title choice applied per extra window of an already-seen pid:
`if len(title) > len(apps_by_pid[pid]["window_title"]): replace`.  Strict
comparison, so equal lengths keep the current (first-seen) title. -/
def pickTitle (cur t : String) : String :=
  if cur.length < t.length then t else cur

/-- One invocation of `enum_window_callback` on the accumulated
`apps_by_pid` dictionary. -/
def stepWindow (m : List (Nat × AppEntry)) (w : RawWindow) :
    List (Nat × AppEntry) :=
  if survives w then
    match findEntry w.pid m with
    | none =>
      m ++ [(w.pid, ⟨w.pid, resolveNameEnum w.proc, w.title⟩)]
    | some e =>
      if e.window_title.length < w.title.length then
        updateTitle w.pid w.title m
      else m
  else m

/-- Python's `str.lower()` applied for the sort key, modelled per character
(ASCII case folding), as a plain character list so that string comparison is
by code point as in Python. -/
def lowerKey (s : String) : List Char := s.data.map Char.toLower

/-- Code-point lexicographic comparison of character lists — the order
Python uses on strings. -/
def charListLe : List Char → List Char → Bool
  | [], _ => true
  | _ :: _, [] => false
  | a :: as, b :: bs =>
    if a.toNat < b.toNat then true
    else if b.toNat < a.toNat then false
    else charListLe as bs

/-- Insert into a list sorted ascending by `key`, before the first element of
equal or larger key (the placement a stable sort gives to an element that
originally preceded the already-sorted ones). -/
def insertAscBy (key : AppEntry → List Char) (x : AppEntry) :
    List AppEntry → List AppEntry
  | [] => [x]
  | y :: ys =>
    if charListLe (key x) (key y) then x :: y :: ys
    else y :: insertAscBy key x ys

/-- Stable ascending sort by `key`, modelling
`apps.sort(key=lambda x: x["process_name"].lower())`. -/
def sortAscBy (key : AppEntry → List Char) : List AppEntry → List AppEntry
  | [] => []
  | x :: xs => insertAscBy key x (sortAscBy key xs)

/-- `get_open_apps`: fold the callback over the raw enumeration, read the
dictionary's values in insertion order, and sort them by lower-cased process
name. -/
def get_open_apps (ws : List RawWindow) : List AppEntry :=
  sortAscBy (fun e => lowerKey e.process_name)
    ((ws.foldl stepWindow []).map Prod.snd)

/-! ## Windows client: foreground-window probe -/

/-- The foreground-window state `get_active_window_info` reads:
`GetForegroundWindow()` (0 when no foreground window exists — Python's
`if not hwnd`), `GetWindowText`, the owning pid, and the `psutil` lookup
outcome for that pid. -/
structure Foreground where
  hwnd : Nat
  title : String
  pid : Nat
  proc : ProcLookup
deriving DecidableEq, Repr

/-- The dictionary returned by `get_active_window_info`:
`{"hwnd", "window_title", "process_name", "pid"}`. -/
structure ActiveAppInfo where
  hwnd : Nat
  window_title : String
  process_name : String
  pid : Nat
deriving DecidableEq, Repr

/-- Name resolution in `get_active_window_info`:
`except psutil.NoSuchProcess: "Unknown"` /
`except psutil.AccessDenied: "AccessDenied"`.  A zombie process raises
`psutil.ZombieProcess`, a subclass of `NoSuchProcess`, so the first clause
catches it and yields `"Unknown"`. -/
def resolveNameProbe : ProcLookup → String
  | .ok name => name
  | .noSuchProcess => "Unknown"
  | .accessDenied => "AccessDenied"
  | .zombieProcess => "Unknown"

/-- `get_active_window_info`: absent exactly when there is no foreground
window; otherwise the title, pid and resolved (or sentinel) process name. -/
def get_active_window_info (fg : Foreground) : Option ActiveAppInfo :=
  if fg.hwnd = 0 then none
  else some ⟨fg.hwnd, fg.title, resolveNameProbe fg.proc, fg.pid⟩

/-! ## Derived notions used to state the window-enumeration claims -/

/-- The windows of a given pid that pass the filter stage — the windows whose
titles compete for that pid's entry. -/
def survivorsFor (pid : Nat) (ws : List RawWindow) : List RawWindow :=
  ws.filter (fun w => survives w && w.pid == pid)

/-- The entry `get_open_apps` builds for a pid, computed directly from that
pid's surviving windows: name from the first survivor, title folded with the
longest-title rule. -/
def entryFromSurvivors (pid : Nat) : List RawWindow → Option AppEntry
  | [] => none
  | w :: rest =>
    some ⟨pid, resolveNameEnum w.proc, (rest.map (·.title)).foldl pickTitle w.title⟩

/-- Specification of what the enumeration fold holds for a pid, given a
starting entry: no starting entry means the entry is built from that pid's
surviving windows, a starting entry keeps its name and folds the surviving
titles into its title. -/
def foldSpec (pid : Nat) (ws : List RawWindow) :
    Option AppEntry → Option AppEntry
  | some e =>
    some ⟨e.pid, e.process_name,
      ((survivorsFor pid ws).map (fun w => w.title)).foldl pickTitle
        e.window_title⟩
  | none => entryFromSurvivors pid (survivorsFor pid ws)

/-- Invariant of the `apps_by_pid` dictionary: keys are distinct (a Python
`dict`) and each entry's `pid` field equals its key. -/
def KeysOk (m : List (Nat × AppEntry)) : Prop :=
  (m.map Prod.fst).Nodup ∧ ∀ p ∈ m, (p.2).pid = p.1

/-- `t` is the first title of maximal length in `ts`: every earlier title is
strictly shorter and every later one no longer. -/
def IsFirstLongest (ts : List String) (t : String) : Prop :=
  ∃ pre post, ts = pre ++ t :: post
    ∧ (∀ s ∈ pre, s.length < t.length)
    ∧ (∀ s ∈ post, s.length ≤ t.length)

/-! ## Server: requests and the token check -/

/-- An inbound HTTP request as the handlers observe it: the `X-Auth-Token`
header (absent or a string, possibly empty) and the JSON body.  `body = none`
models a body that does not parse as JSON: `request.get_json(silent=True)`
yields `None` there (the token check then works on `{}`), while
`request.get_json(force=True)` raises (the handler returns
`400 invalid json`). -/
structure Request (β : Type) where
  header_token : Option String
  body : Option β
deriving DecidableEq, Repr

/-- `check_token_from_request`: read the `X-Auth-Token` header; if it is
falsy (absent or the empty string — Python's `if not token`), fall back to
the body's `token` field, with a silently-failed body parse treated as `{}`.
Accept iff the resulting value equals the configured secret (Python `!=` on
an `Optional[str]` against the secret string). -/
def check_token_from_request {β : Type} (tokenField : β → Option String)
    (secret : String) (req : Request β) : Bool :=
  let fromBody : Option String :=
    match req.body with
    | some data => tokenField data
    | none => none
  let token : Option String :=
    match req.header_token with
    | some t => if t = "" then fromBody else some t
    | none => fromBody
  decide (token = some secret)

/-- The credential the check ends up comparing: the same extraction the code
performs, named so the acceptance condition can be stated against it. -/
def extract_credential {β : Type} (tokenField : β → Option String)
    (req : Request β) : Option String :=
  let fromBody : Option String :=
    match req.body with
    | some data => tokenField data
    | none => none
  match req.header_token with
  | some t => if t = "" then fromBody else some t
  | none => fromBody

/-- The `"active"` object of a `/api/status` body; `data.get("active") or {}`
makes both a missing object and missing fields read as `None`. -/
structure ActivePart where
  process_name : Option String
  window_title : Option String
deriving DecidableEq, Repr

/-- Body of `POST /api/status`. -/
structure StatusBody where
  token : Option String
  active : Option ActivePart
  apps : Option (List AppEntry)
deriving DecidableEq, Repr

/-- JSON value that can sit in the `rate` field of a heart-rate upload (the
shapes the claims exercise: an integer or a string). -/
inductive RateVal where
  | rint (n : Int)
  | rstr (s : String)
deriving DecidableEq, Repr

/-- Body of `POST /api/heartrate`. -/
structure HeartBody where
  token : Option String
  rate : Option RateVal
  source : Option String
deriving DecidableEq, Repr

/-- Responses of the POST handlers, with their HTTP status codes in
`statusCode`. -/
inductive Response where
  | unauthorized
  | invalidJson
  | invalidRate
  | okTrue
  | okStatus
deriving DecidableEq, Repr

/-- HTTP status code attached to each handler response
(`401`/`400`/`200`). -/
def statusCode : Response → Nat
  | .unauthorized => 401
  | .invalidJson => 400
  | .invalidRate => 400
  | .okTrue => 200
  | .okStatus => 200

/-! ## Server: storage model -/

/-- A row of the `activity` table.  `created_at` is the server-assigned
timestamp (an abstract instant); `id` is the `AUTO_INCREMENT` primary key. -/
structure ActivityRow where
  id : Nat
  created_at : Nat
  active_process : Option String
  active_title : Option String
  apps_json : String
deriving DecidableEq, Repr

/-- A row of the `heart_rate` table. -/
structure HeartRateRow where
  id : Nat
  created_at : Nat
  rate : Int
  source : String
deriving DecidableEq, Repr

/-- Insert preserving descending key order (largest key first), used to give
`ORDER BY key DESC` an executable meaning. -/
def insertDescBy {α : Type} (key : α → Nat) (x : α) : List α → List α
  | [] => [x]
  | y :: ys =>
    if key y < key x then x :: y :: ys else y :: insertDescBy key x ys

/-- `ORDER BY key DESC` over a table's rows. -/
def sortDescBy {α : Type} (key : α → Nat) : List α → List α
  | [] => []
  | x :: xs => insertDescBy key x (sortDescBy key xs)

/-- `SELECT ... ORDER BY id DESC LIMIT 1` on the `activity` table. -/
def selectLatestRow (rows : List ActivityRow) : Option ActivityRow :=
  (sortDescBy (fun r => r.id) rows).head?

/-- `AUTO_INCREMENT` id for the next `activity` row: one past the largest id.
The database assigns this; the model only needs it to be fresh. -/
def nextActivityId (rows : List ActivityRow) : Nat :=
  rows.foldl (fun a r => max a r.id) 0 + 1

/-- `AUTO_INCREMENT` id for the next `heart_rate` row. -/
def nextHrId (rows : List HeartRateRow) : Nat :=
  rows.foldl (fun a r => max a r.id) 0 + 1

/-! ## Server: handlers -/

/-- Response body of `GET /api/current`: `{"status": "no data yet"}` on an
empty table, otherwise the latest row's timestamp, active fields and decoded
app list. -/
inductive CurrentResp where
  | noData
  | ok (timestamp : Nat) (active_process : Option String)
      (active_title : Option String) (apps : List AppEntry)
deriving DecidableEq, Repr

/-- `GET /api/current`: fetch the newest `activity` row by id; with no row
answer `noData`; otherwise decode `apps_json` with `json.loads` (`dec`,
passed as a parameter), substituting `[]` when decoding fails
(`except Exception: apps = []`). -/
def get_current (dec : String → Option (List AppEntry))
    (rows : List ActivityRow) : CurrentResp :=
  match selectLatestRow rows with
  | none => .noData
  | some r =>
    .ok r.created_at r.active_process r.active_title ((dec r.apps_json).getD [])

/-- `POST /api/status`: token check first (401), then `get_json(force=True)`
(400 on malformed JSON), then insert one `activity` row with the
server-assigned timestamp `now`, the active fields, and the app list
serialized by `json.dumps` (`encode`, passed as a parameter). -/
def update_status (secret : String) (now : Nat)
    (encode : List AppEntry → String) (req : Request StatusBody)
    (store : List ActivityRow) : Response × List ActivityRow :=
  if !check_token_from_request StatusBody.token secret req then
    (.unauthorized, store)
  else
    match req.body with
    | none => (.invalidJson, store)
    | some data =>
      let active := data.active.getD ⟨none, none⟩
      let apps := data.apps.getD []
      let row : ActivityRow :=
        ⟨nextActivityId store, now, active.process_name, active.window_title,
          encode apps⟩
      (.okTrue, store ++ [row])

/-- Digits-only parse of a character list (the core of Python `int(str)`):
fails on an empty digit string or any non-digit character. -/
def digitsToNat : List Char → Option Nat
  | [] => none
  | cs =>
    if cs.all Char.isDigit then
      some (cs.foldl (fun a c => a * 10 + (c.toNat - 48)) 0)
    else none

/-- Python `int(s)` for a string: strip surrounding whitespace, allow one
leading sign, then require a non-empty run of decimal digits (modelled for
ASCII literals; digit-group underscores and non-ASCII digits are out of
scope).  `int("abc")` raises `ValueError`, i.e. `none`. -/
def pythonIntOfString (s : String) : Option Int :=
  let cs := (s.data.dropWhile Char.isWhitespace).reverse.dropWhile
    Char.isWhitespace |>.reverse
  match cs with
  | '+' :: rest => (digitsToNat rest).map Int.ofNat
  | '-' :: rest => (digitsToNat rest).map (fun n => -(n : Int))
  | rest => (digitsToNat rest).map Int.ofNat

/-- `rate = int(rate)` with `except (TypeError, ValueError)`: a missing/null
rate is a `TypeError` (`none`), an integer passes through, a string goes
through `int(str)`. -/
def parseRate : Option RateVal → Option Int
  | none => none
  | some (.rint n) => some n
  | some (.rstr s) => pythonIntOfString s

/-- `POST /api/heartrate`: token check (401), JSON parse (400), rate
validation (400 `invalid rate`, before any storage access), then insert one
`heart_rate` row and answer `{"status": "ok"}`. -/
def heartrate (secret : String) (now : Nat) (req : Request HeartBody)
    (store : List HeartRateRow) : Response × List HeartRateRow :=
  if !check_token_from_request HeartBody.token secret req then
    (.unauthorized, store)
  else
    match req.body with
    | none => (.invalidJson, store)
    | some data =>
      match parseRate data.rate with
      | none => (.invalidRate, store)
      | some n =>
        (.okStatus,
          store ++ [⟨nextHrId store, now, n, data.source.getD "shortcut"⟩])

/-- `GET /api/heartrate_history`: fetch up to 40 rows newest-first by id
(`ORDER BY id DESC LIMIT 40`), answer `{"points": []}` when there are none,
otherwise reverse to chronological order and project each row to its
`(timestamp, rate)` point. -/
def heartrate_history (rows : List HeartRateRow) : List (Nat × Int) :=
  if ((sortDescBy (fun r => r.id) rows).take 40).isEmpty then []
  else ((sortDescBy (fun r => r.id) rows).take 40).reverse.map
    (fun r => (r.created_at, r.rate))

/-- Body of `POST /api/phone_status`; `battery` is any JSON value the later
`int(battery)` coercion may see. -/
structure PhoneBody where
  token : Option String
  locked : Option String
  battery : Option RateVal
  app : Option String
  source : Option String
deriving DecidableEq, Repr

/-- A row of the `phone_status` table; `battery` is nullable because a
non-coercible value is stored as `NULL`. -/
structure PhoneStatusRow where
  id : Nat
  created_at : Nat
  locked : Option String
  battery : Option Int
  app : Option String
  source : String
deriving DecidableEq, Repr

/-- `AUTO_INCREMENT` id for the next `phone_status` row. -/
def nextPhoneId (rows : List PhoneStatusRow) : Nat :=
  rows.foldl (fun a r => max a r.id) 0 + 1

/-- `POST /api/phone_status`: token check (401), JSON parse (400), then
insert one `phone_status` row.  `battery = int(battery)` under
`except Exception: battery = None` coerces when possible and stores absent
otherwise; `locked`/`app` are free-form, `source` defaults to
`"iphone"`. -/
def phone_status (secret : String) (now : Nat) (req : Request PhoneBody)
    (store : List PhoneStatusRow) : Response × List PhoneStatusRow :=
  if !check_token_from_request PhoneBody.token secret req then
    (.unauthorized, store)
  else
    match req.body with
    | none => (.invalidJson, store)
    | some data =>
      (.okStatus,
        store ++ [⟨nextPhoneId store, now, data.locked, parseRate data.battery,
          data.app, data.source.getD "iphone"⟩])

/-- Ids strictly increase along the list — the append-only `AUTO_INCREMENT`
invariant of a table kept in insertion order. -/
@[reducible] def IdsIncreasing {α : Type} (key : α → Nat) (l : List α) : Prop :=
  List.Pairwise (fun a b => key a < key b) l

/-! ## Concrete fixtures for the witness instances -/

/-- Two qualifying windows of the same process, titles `"A"` and `"ABCDE"`. -/
def wsPair : List RawWindow :=
  [⟨10, true, "A", 0, 0, 200, 100, 1, .ok "app.exe"⟩,
   ⟨11, true, "ABCDE", 0, 0, 200, 100, 1, .ok "app.exe"⟩]

/-- A qualifying window whose owning process is inaccessible
(`psutil.AccessDenied`). -/
def wAccessDenied : RawWindow :=
  ⟨5, true, "Secret Doc", 0, 0, 800, 600, 7, .accessDenied⟩

/-- A foreground window whose owning process is inaccessible. -/
def fgAccessDenied : Foreground := ⟨5, "Secret Doc", 7, .accessDenied⟩

/-- A foreground window whose owning process is a zombie. -/
def fgZombie : Foreground := ⟨3, "Doc", 9, .zombieProcess⟩

/-- Qualifying windows whose process lookups all fail, one per failure
mode. -/
def wsFail : List RawWindow :=
  [⟨1, true, "Alpha", 0, 0, 200, 100, 1, .noSuchProcess⟩,
   ⟨2, true, "Beta", 0, 0, 200, 100, 2, .accessDenied⟩,
   ⟨3, true, "Gamma", 0, 0, 200, 100, 3, .zombieProcess⟩]

/-- A decoder that fails on every stored string — a corrupted `apps_json`
as `json.loads` sees it. -/
def decFail : String → Option (List AppEntry) := fun _ => none

/-- Activity rows with ids 1, 2, 3 where row 2's `created_at` (5) is earlier
than row 1's (10) — the clock-skew scenario. -/
def rowsSkew : List ActivityRow :=
  [⟨1, 10, some "p1", some "t1", "[]"⟩,
   ⟨2, 5, some "p2", some "t2", "[]"⟩,
   ⟨3, 7, some "p3", some "t3", "[]"⟩]

/-- A single activity row whose stored `apps_json` will fail to decode. -/
def rowsCorrupt : List ActivityRow :=
  [⟨1, 5, some "proc", some "title", "corrupt"⟩]

/-- 45 heart-rate rows in insertion order with ids 1..45. -/
def rowsHr45 : List HeartRateRow :=
  (List.range 45).map (fun i => ⟨i + 1, 100 + i, 60 + (i : Int), "shortcut"⟩)

/-- A heart-rate upload with a valid header token and `rate: "abc"`. -/
def reqAbc : Request HeartBody :=
  ⟨some "S", some ⟨none, some (.rstr "abc"), none⟩⟩

/-! ## Lemmas about the `apps_by_pid` dictionary -/

theorem findEntry_append_not_found (pid k : Nat) (e : AppEntry) :
    ∀ m, findEntry pid m = none →
      findEntry pid (m ++ [(k, e)]) = if k = pid then some e else none := by
  intro m
  induction m with
  | nil => intro _; rfl
  | cons p rest ih =>
    obtain ⟨k', e'⟩ := p
    intro h
    by_cases hk : k' = pid
    · simp [findEntry, hk] at h
    · simp only [List.cons_append, findEntry, if_neg hk] at h ⊢
      exact ih h

theorem findEntry_append_ne (pid k : Nat) (e : AppEntry) (hk : k ≠ pid) :
    ∀ m, findEntry pid (m ++ [(k, e)]) = findEntry pid m := by
  intro m
  induction m with
  | nil => simp [findEntry, hk]
  | cons p rest ih =>
    obtain ⟨k', e'⟩ := p
    by_cases h : k' = pid
    · simp [findEntry, h]
    · simp only [List.cons_append, findEntry, if_neg h]
      exact ih

theorem findEntry_updateTitle_self (pid : Nat) (t : String) :
    ∀ m e, findEntry pid m = some e →
      findEntry pid (updateTitle pid t m) = some { e with window_title := t } := by
  intro m
  induction m with
  | nil => intro e h; simp [findEntry] at h
  | cons p rest ih =>
    obtain ⟨k, e'⟩ := p
    intro e h
    by_cases hk : k = pid
    · simp only [findEntry, if_pos hk] at h
      obtain rfl : e' = e := Option.some_injective _ h
      simp only [updateTitle, if_pos hk, findEntry]
    · simp only [findEntry, if_neg hk] at h
      simp only [updateTitle, if_neg hk, findEntry, if_neg hk]
      exact ih e h

theorem findEntry_updateTitle_ne (pid pid' : Nat) (t : String)
    (hne : pid' ≠ pid) :
    ∀ m, findEntry pid (updateTitle pid' t m) = findEntry pid m := by
  intro m
  induction m with
  | nil => rfl
  | cons p rest ih =>
    obtain ⟨k, e⟩ := p
    by_cases hk : k = pid'
    · have hkp : ¬(k = pid) := by rw [hk]; exact hne
      simp only [updateTitle, if_pos hk, findEntry, if_neg hkp]
    · by_cases hp : k = pid
      · simp only [updateTitle, if_neg hk, findEntry, if_pos hp]
      · simp only [updateTitle, if_neg hk, findEntry, if_neg hp]
        exact ih

theorem updateTitle_keys (pid : Nat) (t : String) :
    ∀ m, (updateTitle pid t m).map Prod.fst = m.map Prod.fst := by
  intro m
  induction m with
  | nil => rfl
  | cons p rest ih =>
    obtain ⟨k, e⟩ := p
    by_cases hk : k = pid
    · simp [updateTitle, hk]
    · simp [updateTitle, hk, ih]

theorem findEntry_none_iff (pid : Nat) :
    ∀ m, findEntry pid m = none ↔ pid ∉ m.map Prod.fst := by
  intro m
  induction m with
  | nil => simp [findEntry]
  | cons p rest ih =>
    obtain ⟨k, e⟩ := p
    by_cases hk : k = pid
    · simp [findEntry, hk]
    · simp only [findEntry, if_neg hk, List.map_cons, List.mem_cons]
      rw [ih]
      constructor
      · intro h hmem
        rcases hmem with h1 | h1
        · exact hk h1.symm
        · exact h h1
      · intro h hmem
        exact h (Or.inr hmem)

theorem mem_updateTitle (pid : Nat) (t : String) :
    ∀ m p, p ∈ updateTitle pid t m →
      ∃ q ∈ m, p.1 = q.1
        ∧ (p.2 = q.2 ∨ p.2 = { q.2 with window_title := t }) := by
  intro m
  induction m with
  | nil => intro p hp; simp [updateTitle] at hp
  | cons q rest ih =>
    obtain ⟨k, e⟩ := q
    intro p hp
    by_cases hk : k = pid
    · simp only [updateTitle, if_pos hk, List.mem_cons] at hp
      rcases hp with h1 | h1
      · exact ⟨(k, e), List.mem_cons_self _ _, by rw [h1], Or.inr (by rw [h1])⟩
      · exact ⟨p, List.mem_cons_of_mem _ h1, rfl, Or.inl rfl⟩
    · simp only [updateTitle, if_neg hk, List.mem_cons] at hp
      rcases hp with h1 | h1
      · exact ⟨(k, e), List.mem_cons_self _ _, by rw [h1], Or.inl (by rw [h1])⟩
      · obtain ⟨q', hq', h1', h2'⟩ := ih p h1
        exact ⟨q', List.mem_cons_of_mem _ hq', h1', h2'⟩

/-! ## Lemmas about one callback step and the whole fold -/

theorem stepWindow_not_survives (m : List (Nat × AppEntry)) (w : RawWindow)
    (h : survives w = false) : stepWindow m w = m := by
  simp [stepWindow, h]

theorem findEntry_stepWindow_ne (m : List (Nat × AppEntry)) (w : RawWindow)
    (pid : Nat) (hne : w.pid ≠ pid) :
    findEntry pid (stepWindow m w) = findEntry pid m := by
  by_cases hs : survives w
  · cases hfe : findEntry w.pid m with
    | none =>
      simp only [stepWindow, hs, if_true, hfe]
      exact findEntry_append_ne pid w.pid _ hne m
    | some e =>
      simp only [stepWindow, hs, if_true, hfe]
      by_cases hlt : e.window_title.length < w.title.length
      · rw [if_pos hlt]
        exact findEntry_updateTitle_ne pid w.pid w.title hne m
      · rw [if_neg hlt]
  · rw [stepWindow_not_survives m w (Bool.not_eq_true _ ▸ hs)]

theorem foldl_pickTitle_len_ge :
    ∀ (ts : List String) (c : String),
      c.length ≤ (ts.foldl pickTitle c).length := by
  intro ts
  induction ts with
  | nil => intro c; exact Nat.le_refl _
  | cons s rest ih =>
    intro c
    rw [List.foldl_cons]
    refine Nat.le_trans ?_ (ih (pickTitle c s))
    unfold pickTitle
    by_cases h : c.length < s.length
    · rw [if_pos h]; exact Nat.le_of_lt h
    · rw [if_neg h]

theorem findEntry_foldl_step (pid : Nat) :
    ∀ (ws : List RawWindow) (m : List (Nat × AppEntry)),
      findEntry pid (ws.foldl stepWindow m)
        = foldSpec pid ws (findEntry pid m) := by
  intro ws
  induction ws with
  | nil =>
    intro m
    cases h : findEntry pid m with
    | none => simp [foldSpec, survivorsFor, entryFromSurvivors, h]
    | some e => simp [foldSpec, survivorsFor, h]
  | cons w ws ih =>
    intro m
    rw [List.foldl_cons, ih (stepWindow m w)]
    by_cases hsv : (survives w && w.pid == pid) = true
    · obtain ⟨hs, hp⟩ : survives w = true ∧ w.pid = pid := by
        simpa using hsv
      have hsl : survivorsFor pid (w :: ws) = w :: survivorsFor pid ws := by
        simp [survivorsFor, List.filter_cons, hsv]
      cases hfe : findEntry pid m with
      | none =>
        have hfw : findEntry w.pid m = none := by rw [hp]; exact hfe
        have hstep : stepWindow m w
            = m ++ [(w.pid, ⟨w.pid, resolveNameEnum w.proc, w.title⟩)] := by
          simp [stepWindow, hs, hfw]
        rw [hstep]
        have hf2 : findEntry pid
            (m ++ [(w.pid, ⟨w.pid, resolveNameEnum w.proc, w.title⟩)])
            = some ⟨w.pid, resolveNameEnum w.proc, w.title⟩ := by
          rw [findEntry_append_not_found pid w.pid _ m hfe, if_pos hp]
        rw [hf2]
        simp only [foldSpec, hsl, entryFromSurvivors, List.map_cons]
        rw [hp]
      | some e =>
        have hfw : findEntry w.pid m = some e := by rw [hp]; exact hfe
        by_cases hlt : e.window_title.length < w.title.length
        · have hstep : stepWindow m w = updateTitle w.pid w.title m := by
            simp [stepWindow, hs, hfw, hlt]
          rw [hstep, hp, findEntry_updateTitle_self pid w.title m e hfe]
          simp only [foldSpec, hsl, List.map_cons, List.foldl_cons]
          have hpk : pickTitle e.window_title w.title = w.title :=
            if_pos hlt
          rw [hpk]
        · have hstep : stepWindow m w = m := by
            simp [stepWindow, hs, hfw, hlt]
          rw [hstep, hfe]
          simp only [foldSpec, hsl, List.map_cons, List.foldl_cons]
          have hpk : pickTitle e.window_title w.title = e.window_title :=
            if_neg hlt
          rw [hpk]
    · have hsl : survivorsFor pid (w :: ws) = survivorsFor pid ws := by
        simp only [survivorsFor, List.filter_cons]
        rw [if_neg (by simpa using hsv)]
      have hstep : findEntry pid (stepWindow m w) = findEntry pid m := by
        by_cases hs : survives w = true
        · have hp : w.pid ≠ pid := by
            intro h
            exact hsv (by simp [hs, h])
          exact findEntry_stepWindow_ne m w pid hp
        · rw [stepWindow_not_survives m w (Bool.not_eq_true _ ▸ hs)]
      rw [hstep]
      cases h : findEntry pid m with
      | none => simp [foldSpec, hsl]
      | some e => simp [foldSpec, hsl]

/-! ## The dictionary invariant and membership -/

theorem keysOk_step (m : List (Nat × AppEntry)) (w : RawWindow)
    (h : KeysOk m) : KeysOk (stepWindow m w) := by
  by_cases hs : survives w = true
  · cases hfe : findEntry w.pid m with
    | none =>
      have hstep : stepWindow m w
          = m ++ [(w.pid, ⟨w.pid, resolveNameEnum w.proc, w.title⟩)] := by
        simp [stepWindow, hs, hfe]
      rw [hstep]
      constructor
      · rw [List.map_append]
        refine List.Nodup.append h.1 (by simp) ?_
        intro a ha1 ha2
        simp only [List.map_cons, List.map_nil, List.mem_singleton] at ha2
        subst ha2
        exact (findEntry_none_iff w.pid m).mp hfe ha1
      · intro p hp
        rcases List.mem_append.mp hp with h1 | h1
        · exact h.2 p h1
        · simp only [List.mem_singleton] at h1
          rw [h1]
    | some e =>
      by_cases hlt : e.window_title.length < w.title.length
      · have hstep : stepWindow m w = updateTitle w.pid w.title m := by
          simp [stepWindow, hs, hfe, hlt]
        rw [hstep]
        constructor
        · rw [updateTitle_keys]
          exact h.1
        · intro p hp
          obtain ⟨q, hq, h1, h2⟩ := mem_updateTitle w.pid w.title m p hp
          rcases h2 with h2 | h2
          · rw [h2, h1]
            exact h.2 q hq
          · rw [h2, h1]
            exact h.2 q hq
      · have hstep : stepWindow m w = m := by
          simp [stepWindow, hs, hfe, hlt]
        rw [hstep]
        exact h
  · rw [stepWindow_not_survives m w (Bool.not_eq_true _ ▸ hs)]
    exact h

theorem keysOk_foldl (ws : List RawWindow) :
    ∀ m, KeysOk m → KeysOk (ws.foldl stepWindow m) := by
  induction ws with
  | nil => intro m h; exact h
  | cons w ws ih =>
    intro m h
    rw [List.foldl_cons]
    exact ih _ (keysOk_step m w h)

theorem findEntry_of_mem (pid : Nat) (e : AppEntry) :
    ∀ m, (m.map Prod.fst).Nodup → (pid, e) ∈ m → findEntry pid m = some e := by
  intro m
  induction m with
  | nil => intro _ h; simp at h
  | cons p rest ih =>
    obtain ⟨k, e'⟩ := p
    intro hnd hmem
    rw [List.map_cons] at hnd
    have hnd' := List.nodup_cons.mp hnd
    rcases List.mem_cons.mp hmem with h1 | h1
    · cases h1
      simp [findEntry]
    · by_cases hk : k = pid
      · exfalso
        apply hnd'.1
        subst hk
        exact List.mem_map.mpr ⟨(k, e), h1, rfl⟩
      · simp only [findEntry, if_neg hk]
        exact ih hnd'.2 h1

/-! ## The final sort is a permutation -/

theorem insertAscBy_perm (key : AppEntry → List Char) (x : AppEntry) :
    ∀ l, (insertAscBy key x l).Perm (x :: l) := by
  intro l
  induction l with
  | nil => exact List.Perm.refl _
  | cons y ys ih =>
    by_cases h : charListLe (key x) (key y) = true
    · simp only [insertAscBy, if_pos h]
      exact List.Perm.refl _
    · simp only [insertAscBy, if_neg h]
      exact (ih.cons y).trans (List.Perm.swap x y ys)

theorem sortAscBy_perm (key : AppEntry → List Char) :
    ∀ l, (sortAscBy key l).Perm l := by
  intro l
  induction l with
  | nil => exact List.Perm.refl _
  | cons x xs ih =>
    exact (insertAscBy_perm key x (sortAscBy key xs)).trans (ih.cons x)

/-! ## First-longest characterization of the title fold -/

theorem foldl_pickTitle_firstLongest :
    ∀ (ts : List String) (c : String),
      IsFirstLongest (c :: ts) (ts.foldl pickTitle c) := by
  intro ts
  induction ts with
  | nil =>
    intro c
    exact ⟨[], [], rfl, by simp, by simp⟩
  | cons s rest ih =>
    intro c
    rw [List.foldl_cons]
    by_cases hc : c.length < s.length
    · rw [show pickTitle c s = s from if_pos hc]
      obtain ⟨pre, post, heq, hpre, hpost⟩ := ih s
      refine ⟨c :: pre, post, ?_, ?_, hpost⟩
      · rw [List.cons_append, ← heq]
      · intro x hx
        rcases List.mem_cons.mp hx with h1 | h1
        · subst h1
          exact Nat.lt_of_lt_of_le hc (foldl_pickTitle_len_ge rest s)
        · exact hpre x h1
    · rw [show pickTitle c s = c from if_neg hc]
      obtain ⟨pre, post, heq, hpre, hpost⟩ := ih c
      cases pre with
      | nil =>
        rw [List.nil_append] at heq
        injection heq with h1 h2
        refine ⟨[], s :: rest, ?_, by simp, ?_⟩
        · rw [List.nil_append, ← h1]
        · intro x hx
          rcases List.mem_cons.mp hx with h1' | h1'
          · subst h1'
            rw [← h1]
            exact Nat.le_of_not_lt hc
          · exact hpost x (h2 ▸ h1')
      | cons c0 pre' =>
        rw [List.cons_append] at heq
        injection heq with h1 h2
        have hcl : c.length < (rest.foldl pickTitle c).length := by
          have hc0 := hpre c0 (List.mem_cons_self _ _)
          rw [← h1] at hc0
          exact hc0
        refine ⟨c :: s :: pre', post, ?_, ?_, hpost⟩
        · rw [List.cons_append, List.cons_append, ← h2]
        · intro x hx
          rcases List.mem_cons.mp hx with h1' | h1'
          · subst h1'
            exact hcl
          · rcases List.mem_cons.mp h1' with h2' | h2'
            · subst h2'
              exact Nat.lt_of_le_of_lt (Nat.le_of_not_lt hc) hcl
            · exact hpre x (List.mem_cons_of_mem _ h2')

/-- Every emitted entry is built from its pid's surviving windows: name from
the first survivor, title the fold of all surviving titles. -/
theorem open_apps_mem_entry (ws : List RawWindow) (e : AppEntry)
    (he : e ∈ get_open_apps ws) :
    ∃ w rest, survivorsFor e.pid ws = w :: rest
      ∧ e.process_name = resolveNameEnum w.proc
      ∧ e.window_title
          = (rest.map (fun v => v.title)).foldl pickTitle w.title := by
  have hko := keysOk_foldl ws [] ⟨List.nodup_nil, by simp⟩
  have hperm := sortAscBy_perm (fun e => lowerKey e.process_name)
    ((ws.foldl stepWindow []).map Prod.snd)
  simp only [get_open_apps] at he
  have hmem : e ∈ (ws.foldl stepWindow []).map Prod.snd :=
    hperm.mem_iff.mp he
  obtain ⟨p, hpmem, hpe⟩ := List.mem_map.mp hmem
  obtain ⟨k, e'⟩ := p
  cases hpe
  have hpid : e'.pid = k := hko.2 (k, e') hpmem
  have hfe : findEntry k (ws.foldl stepWindow []) = some e' :=
    findEntry_of_mem k e' _ hko.1 hpmem
  rw [findEntry_foldl_step k ws []] at hfe
  have hfe2 : entryFromSurvivors k (survivorsFor k ws) = some e' := hfe
  cases hsv : survivorsFor k ws with
  | nil =>
    rw [hsv] at hfe2
    exact absurd hfe2 (by simp [entryFromSurvivors])
  | cons w rest =>
    rw [hsv] at hfe2
    simp only [entryFromSurvivors] at hfe2
    obtain rfl :
        (⟨k, resolveNameEnum w.proc,
          (rest.map (fun v => v.title)).foldl pickTitle w.title⟩ : AppEntry)
          = e' := Option.some_injective _ hfe2
    exact ⟨w, rest, hsv, rfl, rfl⟩

/-! ## Lemmas about the descending sort (`ORDER BY id DESC`) -/

theorem sortDescBy_head_max {α : Type} (key : α → Nat) :
    ∀ l : List α, l ≠ [] →
      ∃ h t, sortDescBy key l = h :: t ∧ h ∈ l ∧ ∀ y ∈ l, key y ≤ key h := by
  intro l
  induction l with
  | nil => intro h; exact absurd rfl h
  | cons x xs ih =>
    intro _
    cases xs with
    | nil =>
      refine ⟨x, [], rfl, List.mem_singleton.mpr rfl, ?_⟩
      intro y hy
      rw [List.mem_singleton] at hy
      subst hy
      exact Nat.le_refl _
    | cons a as =>
      obtain ⟨h, t, hs, hmem, hmax⟩ := ih (by simp)
      by_cases hc : key h < key x
      · refine ⟨x, h :: t, ?_, List.mem_cons_self _ _, ?_⟩
        · rw [sortDescBy, hs, insertDescBy, if_pos hc]
        · intro y hy
          rcases List.mem_cons.mp hy with h1 | h1
          · subst h1; exact Nat.le_refl _
          · exact Nat.le_trans (hmax y h1) (Nat.le_of_lt hc)
      · refine ⟨h, insertDescBy key x t, ?_,
          List.mem_cons_of_mem _ hmem, ?_⟩
        · rw [sortDescBy, hs, insertDescBy, if_neg hc]
        · intro y hy
          rcases List.mem_cons.mp hy with h1 | h1
          · subst h1; exact Nat.le_of_not_lt hc
          · exact hmax y h1

theorem selectLatestRow_greatest (rows : List ActivityRow) (r : ActivityRow)
    (hmem : r ∈ rows) (hmax : ∀ q ∈ rows, q ≠ r → q.id < r.id) :
    selectLatestRow rows = some r := by
  have hne : rows ≠ [] := by
    intro h
    subst h
    simp at hmem
  obtain ⟨h, t, hs, hm, hx⟩ := sortDescBy_head_max (fun r => r.id) rows hne
  have heq : h = r := by
    by_contra hne2
    have h1 := hmax h hm hne2
    have h2 := hx r hmem
    simp only [] at h1 h2
    omega
  subst heq
  unfold selectLatestRow
  rw [hs]
  rfl

theorem insertDescBy_eq_append {α : Type} (key : α → Nat) (x : α) :
    ∀ l : List α, (∀ y ∈ l, ¬ key y < key x) →
      insertDescBy key x l = l ++ [x] := by
  intro l
  induction l with
  | nil => intro _; rfl
  | cons y ys ih =>
    intro h
    have hy := h y (List.mem_cons_self _ _)
    simp only [insertDescBy, if_neg hy]
    rw [ih (fun z hz => h z (List.mem_cons_of_mem _ hz))]
    rfl

theorem sortDescBy_of_increasing {α : Type} (key : α → Nat) :
    ∀ l : List α, IdsIncreasing key l → sortDescBy key l = l.reverse := by
  intro l
  induction l with
  | nil => intro _; rfl
  | cons x xs ih =>
    intro h
    rw [IdsIncreasing, List.pairwise_cons] at h
    simp only [sortDescBy]
    rw [ih h.2]
    rw [insertDescBy_eq_append key x xs.reverse (fun y hy => by
      have := h.1 y (List.mem_reverse.mp hy)
      omega)]
    simp

/-! ## Claim theorems: server side -/

/-- C1: for the activity store, the latest row served by `GET /api/current`
is the one with the greatest id regardless of `created_at`, and an empty
store yields the well-defined `{"status": "no data yet"}` result. -/
theorem activity_latest_is_greatest_id
    (dec : String → Option (List AppEntry)) (rows : List ActivityRow)
    (r : ActivityRow) (hmem : r ∈ rows)
    (hmax : ∀ q ∈ rows, q ≠ r → q.id < r.id) :
    get_current dec rows
      = CurrentResp.ok r.created_at r.active_process r.active_title
          ((dec r.apps_json).getD [])
    ∧ get_current dec [] = CurrentResp.noData := by
  constructor
  · unfold get_current
    rw [selectLatestRow_greatest rows r hmem hmax]
  · rfl

theorem activity_latest_is_greatest_id_witness :
    get_current decFail rowsSkew
      = CurrentResp.ok 7 (some "p3") (some "t3") []
    ∧ get_current decFail [] = CurrentResp.noData :=
  activity_latest_is_greatest_id decFail rowsSkew
    ⟨3, 7, some "p3", some "t3", "[]"⟩ (by decide) (by decide)

/-- C8: when the stored `apps_json` of the newest activity row fails to
decode, `GET /api/current` substitutes an empty app list and still returns
the row's other fields. -/
theorem current_survives_corrupt_apps_json
    (dec : String → Option (List AppEntry)) (rows : List ActivityRow)
    (r : ActivityRow) (hlatest : selectLatestRow rows = some r)
    (hfail : dec r.apps_json = none) :
    get_current dec rows
      = CurrentResp.ok r.created_at r.active_process r.active_title [] := by
  simp [get_current, hlatest, hfail]

theorem current_survives_corrupt_apps_json_witness :
    get_current decFail rowsCorrupt
      = CurrentResp.ok 5 (some "proc") (some "title") [] :=
  current_survives_corrupt_apps_json decFail rowsCorrupt
    ⟨1, 5, some "proc", some "title", "corrupt"⟩ (by decide) rfl

/-- C6: `POST /api/heartrate` rejects a rate that does not parse as an
integer (such as `"abc"`) with a `400 invalid rate` and leaves the store
unchanged; a parseable rate is inserted and answered `{"status": "ok"}`. -/
theorem heartrate_invalid_rate_rejected
    (secret : String) (now : Nat) (req : Request HeartBody)
    (store : List HeartRateRow) (data : HeartBody)
    (hauth : check_token_from_request HeartBody.token secret req = true)
    (hbody : req.body = some data) :
    (parseRate data.rate = none →
      heartrate secret now req store = (Response.invalidRate, store))
    ∧ (∀ n, parseRate data.rate = some n →
        heartrate secret now req store
          = (Response.okStatus,
              store ++ [⟨nextHrId store, now, n, data.source.getD "shortcut"⟩]))
    ∧ parseRate (some (RateVal.rstr "abc")) = none
    ∧ statusCode Response.invalidRate = 400 := by
  refine ⟨?_, ?_, by decide, rfl⟩
  · intro hrate
    simp [heartrate, hauth, hbody, hrate]
  · intro n hrate
    simp [heartrate, hauth, hbody, hrate]

theorem heartrate_invalid_rate_rejected_witness :
    heartrate "S" 0 reqAbc [] = (Response.invalidRate, []) :=
  (heartrate_invalid_rate_rejected "S" 0 reqAbc []
    ⟨none, some (.rstr "abc"), none⟩ (by decide) rfl).1 (by decide)

/-- C7: `GET /api/heartrate_history` returns up to 40 of the most recent
heart-rate rows, fetched newest-first by id and reversed to
oldest-to-newest; on an append-only store this is exactly the last
`min 40` rows in insertion order, and an empty store yields an empty point
list. -/
theorem heartrate_history_last40 (rows : List HeartRateRow)
    (hinc : IdsIncreasing (fun r => r.id) rows) :
    heartrate_history rows
      = (rows.drop (rows.length - 40)).map (fun r => (r.created_at, r.rate))
    ∧ (heartrate_history rows).length = min rows.length 40
    ∧ (rows = [] → heartrate_history rows = []) := by
  have htake : (sortDescBy (fun r => r.id) rows).take 40
      = (rows.drop (rows.length - 40)).reverse := by
    rw [sortDescBy_of_increasing _ rows hinc, List.reverse_drop]
    apply List.take_eq_take.mpr
    simp only [List.length_reverse]
    omega
  have hmain : heartrate_history rows
      = (rows.drop (rows.length - 40)).map
          (fun r => (r.created_at, r.rate)) := by
    unfold heartrate_history
    rw [htake]
    by_cases hnil : rows.drop (rows.length - 40) = []
    · rw [hnil]; simp
    · simp [List.isEmpty_iff, hnil]
  refine ⟨hmain, ?_, fun h => by subst h; simpa using hmain⟩
  rw [hmain]
  simp only [List.length_map, List.length_drop]
  omega

theorem heartrate_history_last40_witness :
    heartrate_history rowsHr45
      = (rowsHr45.drop 5).map (fun r => (r.created_at, r.rate)) :=
  (heartrate_history_last40 rowsHr45 (by decide)).1

/-- C2: the credential check accepts exactly when the extracted credential
(header, falling back to the body token as the code extracts it) equals the
configured secret; a request with no header and body `{}` is rejected; a
request whose header carries the (non-empty) secret is accepted; a missing
header with body `{}` is answered the same as a missing header with no
parseable body. -/
theorem auth_accepts_iff_credential_matches (secret : String)
    (req : Request StatusBody) :
    (check_token_from_request StatusBody.token secret req = true
      ↔ extract_credential StatusBody.token req = some secret)
    ∧ check_token_from_request StatusBody.token secret
        ⟨none, some ⟨none, none, none⟩⟩ = false
    ∧ (secret ≠ "" →
        check_token_from_request StatusBody.token secret ⟨some secret, none⟩
          = true)
    ∧ check_token_from_request StatusBody.token secret
        ⟨none, some ⟨none, none, none⟩⟩
      = check_token_from_request StatusBody.token secret ⟨none, none⟩ := by
  refine ⟨?_, ?_, ?_, ?_⟩
  · simp [check_token_from_request, extract_credential]
  · simp [check_token_from_request]
  · intro h
    simp [check_token_from_request, h]
  · simp [check_token_from_request]

theorem auth_accepts_iff_credential_matches_witness :
    check_token_from_request StatusBody.token "S" ⟨some "S", none⟩ = true
    ∧ check_token_from_request StatusBody.token "S"
        ⟨none, some ⟨none, none, none⟩⟩ = false :=
  ⟨(auth_accepts_iff_credential_matches "S" ⟨none, none⟩).2.2.1 (by decide),
   (auth_accepts_iff_credential_matches "S" ⟨none, none⟩).2.1⟩

/-- C9: because the header value is tested for falsiness rather than
presence, a request whose `X-Auth-Token` header is present but empty and
whose body carries the secret in its `token` field is authorized via the
body token. -/
theorem auth_empty_header_falls_back_to_body (secret : String) :
    check_token_from_request StatusBody.token secret
      ⟨some "", some ⟨some secret, none, none⟩⟩ = true := by
  simp [check_token_from_request]

/-- On a request whose body does not parse as JSON, the token check rejects
whenever the header does not carry the secret (this holds for every body
type, i.e. for every authenticated endpoint): the silent body parse yields
`{}`, whose `token` lookup is `None`. -/
theorem check_false_of_bad_header_no_body {β : Type}
    (tokenField : β → Option String) (secret : String) (hdr : Option String)
    (hhdr : hdr ≠ some secret) :
    check_token_from_request tokenField secret
      (⟨hdr, none⟩ : Request β) = false := by
  cases hdr with
  | none => simp [check_token_from_request]
  | some t =>
    by_cases ht : t = ""
    · simp [check_token_from_request, ht]
    · have hts : ¬(t = secret) := fun h => hhdr (by rw [h])
      simp [check_token_from_request, ht, hts]

/-- C10: on every authenticated endpoint (`POST /api/status`,
`POST /api/heartrate`, `POST /api/phone_status`) the token check runs before
JSON validation: a malformed body with no valid header credential is
answered `401 unauthorized` (not `400 invalid json`), because the token
check parses the body silently — treating a parse failure as an empty
body — and rejects first. -/
theorem auth_checked_before_json_validation (secret : String) (now : Nat)
    (encode : List AppEntry → String) (hdr : Option String)
    (hhdr : hdr ≠ some secret) (sStore : List ActivityRow)
    (hStore : List HeartRateRow) (pStore : List PhoneStatusRow) :
    update_status secret now encode ⟨hdr, none⟩ sStore
      = (Response.unauthorized, sStore)
    ∧ heartrate secret now ⟨hdr, none⟩ hStore
      = (Response.unauthorized, hStore)
    ∧ phone_status secret now ⟨hdr, none⟩ pStore
      = (Response.unauthorized, pStore)
    ∧ statusCode Response.unauthorized = 401
    ∧ statusCode Response.invalidJson = 400 := by
  refine ⟨?_, ?_, ?_, rfl, rfl⟩
  · simp [update_status,
      check_false_of_bad_header_no_body StatusBody.token secret hdr hhdr]
  · simp [heartrate,
      check_false_of_bad_header_no_body HeartBody.token secret hdr hhdr]
  · simp [phone_status,
      check_false_of_bad_header_no_body PhoneBody.token secret hdr hhdr]

theorem auth_checked_before_json_validation_witness :
    update_status "S" 0 (fun _ => "") ⟨some "wrong", none⟩ []
      = (Response.unauthorized, [])
    ∧ heartrate "S" 0 ⟨some "wrong", none⟩ [] = (Response.unauthorized, [])
    ∧ phone_status "S" 0 ⟨some "wrong", none⟩ []
      = (Response.unauthorized, []) :=
  ⟨(auth_checked_before_json_validation "S" 0 (fun _ => "") (some "wrong")
      (by decide) [] [] []).1,
   (auth_checked_before_json_validation "S" 0 (fun _ => "") (some "wrong")
      (by decide) [] [] []).2.1,
   (auth_checked_before_json_validation "S" 0 (fun _ => "") (some "wrong")
      (by decide) [] [] []).2.2.1⟩

/-! ## Claim theorems: Windows client -/

/-- C3: `get_open_apps` emits at most one entry per process id, and each
emitted entry keeps the first title of maximal length among that pid's
surviving windows (strictly longer titles replace, equal lengths keep the
first seen). -/
theorem open_apps_unique_pid_keeps_first_longest (ws : List RawWindow) :
    ((get_open_apps ws).map (fun e => e.pid)).Nodup
    ∧ ∀ e ∈ get_open_apps ws,
        IsFirstLongest ((survivorsFor e.pid ws).map (fun w => w.title))
          e.window_title := by
  constructor
  · have hko := keysOk_foldl ws [] ⟨List.nodup_nil, by simp⟩
    have hperm := sortAscBy_perm (fun e => lowerKey e.process_name)
      ((ws.foldl stepWindow []).map Prod.snd)
    have hmap : ((ws.foldl stepWindow []).map Prod.snd).map (fun e => e.pid)
        = (ws.foldl stepWindow []).map Prod.fst := by
      rw [List.map_map]
      exact List.map_congr_left (fun p hp => hko.2 p hp)
    have hperm2 := hperm.map (fun e => e.pid)
    rw [hmap] at hperm2
    simp only [get_open_apps]
    exact hperm2.nodup_iff.mpr hko.1
  · intro e he
    obtain ⟨w, rest, hsv, _, htitle⟩ := open_apps_mem_entry ws e he
    rw [hsv, List.map_cons, htitle]
    exact foldl_pickTitle_firstLongest (rest.map (fun v => v.title)) w.title

theorem open_apps_unique_pid_keeps_first_longest_witness :
    ((get_open_apps wsPair).map (fun e => e.pid)).Nodup
    ∧ IsFirstLongest ((survivorsFor 1 wsPair).map (fun w => w.title))
        "ABCDE" :=
  ⟨(open_apps_unique_pid_keeps_first_longest wsPair).1,
   (open_apps_unique_pid_keeps_first_longest wsPair).2
     ⟨1, "app.exe", "ABCDE"⟩ (by decide)⟩

/-- C4 counterexample: a qualifying window whose process is inaccessible
(`psutil.AccessDenied`) is reported by `get_open_apps` with process name
`"Unknown"`, not `"AccessDenied"` — the enumerator's single `except` clause
substitutes `"Unknown"` for all three lookup failures. -/
theorem open_apps_access_denied_shows_unknown :
    get_open_apps [wAccessDenied] = [⟨7, "Unknown", "Secret Doc"⟩]
    ∧ ("Unknown" : String) ≠ "AccessDenied" :=
  ⟨by decide, by decide⟩

/-- C4 amended: when every window of an entry's pid has a failing process
lookup (gone, inaccessible, or zombie alike), `get_open_apps` still emits
the entry, with the single sentinel `"Unknown"` as its process name. -/
theorem open_apps_lookup_failure_yields_unknown (ws : List RawWindow)
    (e : AppEntry) (he : e ∈ get_open_apps ws)
    (hfail : ∀ w ∈ ws, w.pid = e.pid → isLookupFailure w.proc = true) :
    e.process_name = "Unknown" := by
  obtain ⟨w, rest, hsv, hname, _⟩ := open_apps_mem_entry ws e he
  have hw : w ∈ survivorsFor e.pid ws := by
    rw [hsv]
    exact List.mem_cons_self _ _
  simp only [survivorsFor, List.mem_filter] at hw
  have hpid : w.pid = e.pid := by
    have := hw.2
    simp only [Bool.and_eq_true] at this
    simpa using this.2
  have hf := hfail w hw.1 hpid
  rw [hname]
  cases hproc : w.proc with
  | ok n =>
    rw [hproc] at hf
    simp [isLookupFailure] at hf
  | noSuchProcess => rfl
  | accessDenied => rfl
  | zombieProcess => rfl

theorem open_apps_lookup_failure_yields_unknown_witness :
    (⟨2, "Unknown", "Beta"⟩ : AppEntry) ∈ get_open_apps wsFail
    ∧ (⟨2, "Unknown", "Beta"⟩ : AppEntry).process_name = "Unknown" :=
  ⟨by decide,
   open_apps_lookup_failure_yields_unknown wsFail ⟨2, "Unknown", "Beta"⟩
     (by decide) (by decide)⟩

/-- C5 counterexample: for an inaccessible process the probe's sentinel
(`"AccessDenied"`) differs from the enumerator's (`"Unknown"`), so the probe
does not use the same fallback sentinels as the enumerator. -/
theorem active_probe_sentinel_differs_from_enumerator :
    (get_active_window_info fgAccessDenied).map (fun i => i.process_name)
      = some "AccessDenied"
    ∧ (get_open_apps [wAccessDenied]).map (fun e => e.process_name)
      = ["Unknown"]
    ∧ ("AccessDenied" : String) ≠ "Unknown" :=
  ⟨by decide, by decide, by decide⟩

/-- C5 amended: `get_active_window_info` returns absent exactly when no
foreground window exists; otherwise it always returns an `ActiveAppInfo`,
substituting `"Unknown"` when the process is gone or a zombie (the
`ZombieProcess` exception is a `NoSuchProcess` subclass) and
`"AccessDenied"` when it is inaccessible. -/
theorem active_probe_total_with_sentinels (fg : Foreground) :
    (get_active_window_info fg = none ↔ fg.hwnd = 0)
    ∧ (fg.hwnd ≠ 0 →
        get_active_window_info fg
          = some ⟨fg.hwnd, fg.title, resolveNameProbe fg.proc, fg.pid⟩)
    ∧ ((fg.proc = ProcLookup.noSuchProcess
        ∨ fg.proc = ProcLookup.zombieProcess)
        → resolveNameProbe fg.proc = "Unknown")
    ∧ (fg.proc = ProcLookup.accessDenied
        → resolveNameProbe fg.proc = "AccessDenied") := by
  refine ⟨?_, ?_, ?_, ?_⟩
  · unfold get_active_window_info
    by_cases h : fg.hwnd = 0
    · simp [h]
    · simp [h]
  · intro h
    simp [get_active_window_info, h]
  · rintro (h | h) <;> rw [h] <;> rfl
  · intro h
    rw [h]
    rfl

theorem active_probe_total_with_sentinels_witness :
    get_active_window_info fgZombie = some ⟨3, "Doc", "Unknown", 9⟩
    ∧ resolveNameProbe ProcLookup.zombieProcess = "Unknown" :=
  ⟨(active_probe_total_with_sentinels fgZombie).2.1 (by decide),
   (active_probe_total_with_sentinels fgZombie).2.2.1 (Or.inr rfl)⟩

end CyberStalk
